import Mathlib

/-!
Verification development for the Fuel block root-validation program
(`src/main.rs`): a single-block verifier that recomputes the block header's
transactions-root and, per Script transaction, the embedded receipts-root,
from the raw data returned by a node, and compares them byte-exact.

The binary Merkle accumulator (`fuel_merkle`'s `MerkleRootCalculator`) and
the transaction/receipt codec (`fuel_tx` / `fuel_types`) are external
collaborators of this repository: the accumulator is modelled from the
spec's description, and the codec is abstracted as a parameter structure,
so every theorem quantifies over the codec.

Bytes are modelled as `List Nat`; a digest is a byte list compared by exact
equality.
-/

namespace RootValidation

/-- A byte string / digest: equality is byte-exact. -/
abbrev Digest := List Nat

/-- Modelled from the spec: the hash scheme of the external binary Merkle
accumulator (not part of this repository's sources) — leaves are hashed
individually (`leafHash`), internal nodes are formed by hashing the
combination of their two children's digests (`nodeHash`), and the empty
sequence has a fixed canonical digest (`emptyRoot`). -/
structure HashModel where
  leafHash : List Nat → Digest
  nodeHash : Digest → Digest → Digest
  emptyRoot : Digest

/-- Modelled from the spec: the incremental binary Merkle root calculator
(`fuel_merkle::binary::root_calculator::MerkleRootCalculator`, not part of
this repository's sources).  Its state is a stack of subtree digests with
their heights, most recent subtree first. -/
structure MerkleRootCalculator where
  stack : List (Digest × Nat)
deriving DecidableEq, Repr

namespace MerkleRootCalculator

/-- A fresh, empty accumulator (`MerkleRootCalculator::new`). -/
def new : MerkleRootCalculator := ⟨[]⟩

/-- One pass of the post-push merge loop, fuelled by the stack length:
while the two most recent subtrees have equal height, merge them into one
node of the next height (the left child is the older subtree). -/
def mergeAux (H : HashModel) : Nat → List (Digest × Nat) → List (Digest × Nat)
  | 0, s => s
  | _ + 1, [] => []
  | _ + 1, [x] => [x]
  | fuel + 1, (d1, h1) :: (d2, h2) :: rest =>
    if h1 = h2 then mergeAux H fuel ((H.nodeHash d2 d1, h1 + 1) :: rest)
    else (d1, h1) :: (d2, h2) :: rest

/-- Append one leaf (`MerkleRootCalculator::push`): hash it as a leaf at
height 0, put it on the stack, and merge equal-height subtrees. -/
def push (H : HashModel) (a : MerkleRootCalculator) (leaf : List Nat) :
    MerkleRootCalculator :=
  ⟨mergeAux H (a.stack.length + 1) ((H.leafHash leaf, 0) :: a.stack)⟩

/-- Fold the remaining stack into one digest: the running node is joined as
the right child of each next (older, taller) subtree. -/
def rootFold (H : HashModel) : Digest → List (Digest × Nat) → Digest
  | node, [] => node
  | node, (d, _) :: rest => rootFold H (H.nodeHash d node) rest

/-- Compute the root (`MerkleRootCalculator::root`): the canonical empty
digest for an empty accumulator, otherwise the fold of the stack. -/
def root (H : HashModel) (a : MerkleRootCalculator) : Digest :=
  match a.stack with
  | [] => H.emptyRoot
  | (d, _) :: rest => rootFold H d rest

/-- Push every leaf of a list, in order. -/
def pushAll (H : HashModel) (a : MerkleRootCalculator) (ls : List (List Nat)) :
    MerkleRootCalculator :=
  ls.foldl (fun acc l => push H acc l) a

end MerkleRootCalculator

/-- The Merkle root of a leaf sequence: push all leaves into a fresh
accumulator and take its root. -/
def computeRoot (H : HashModel) (ls : List (List Nat)) : Digest :=
  MerkleRootCalculator.root H (MerkleRootCalculator.pushAll H .new ls)

/-! ## Data model of the fetched block (`FullBlock` and friends) -/

/-- A receipt as returned by the node's query layer (the GraphQL
representation, before `try_into` conversion). -/
abbrev GqlReceipt := List Nat

/-- A converted receipt (`fuel_tx::Receipt`), abstract: only its canonical
encoding matters to the verifier. -/
abbrev Receipt := List Nat

/-- `TransactionStatus` as matched by the verifier: `SuccessStatus` carries
receipts, `FailureStatus` carries receipts and a failure reason, and any
other variant is `OtherStatus`. -/
inductive TxStatus where
  | SuccessStatus (receipts : List GqlReceipt)
  | FailureStatus (reason : String) (receipts : List GqlReceipt)
  | OtherStatus
deriving DecidableEq, Repr

/-- A decoded transaction (`fuel_tx::Transaction`): a `Script` transaction
embeds a claimed receipts-root in its body; every other kind carries no
receipts-root field. -/
inductive TypedTx where
  | Script (receiptsRoot : Digest) (body : List Nat)
  | NonScript (body : List Nat)
deriving DecidableEq, Repr

/-- One transaction of the fetched block
(`OpaqueTransactionWithStatusAndId`): an opaque id, the raw encoded
payload, and an optional status. -/
structure Tx where
  id : String
  rawPayload : List Nat
  status : Option TxStatus
deriving DecidableEq, Repr

/-- The fetched block (`FullBlock`): id, the header's claimed
transactions-root, and the ordered transactions. -/
structure Block where
  id : String
  transactionsRoot : Digest
  transactions : List Tx
deriving DecidableEq, Repr

/-- The external transaction/receipt codec the verifier consumes
(`Transaction::from_bytes`, `to_bytes`, receipt `try_into` and
`to_bytes`), abstracted as the spec's collaborator contract. -/
structure Codec where
  decodeTx : List Nat → Except String TypedTx
  encodeTx : TypedTx → List Nat
  convertReceipt : GqlReceipt → Except String Receipt
  encodeReceipt : Receipt → List Nat

/-- The receipts the verifier extracts from a status: `SuccessStatus` and
`FailureStatus` yield their receipts, anything else yields none (the
`_ => continue` arm of the `match` in `main`). -/
def statusReceipts : Option TxStatus → Option (List GqlReceipt)
  | some (.SuccessStatus rs) => some rs
  | some (.FailureStatus _ rs) => some rs
  | _ => none

/-- The errors `main` can return, mirroring its `anyhow` error paths. -/
inductive VerifyError where
  | DecodeError (msg : String)
  | ConversionError (msg : String)
  | ReceiptRootMismatch (txId : String) (blockId : String)
      (expected : Digest) (actual : Digest)
  | TransactionRootMismatch (expected : Digest) (actual : Digest)
deriving DecidableEq, Repr

/-- Fatal (non-mismatch) errors: a payload or receipt that cannot be
parsed. -/
def VerifyError.isFatal : VerifyError → Bool
  | .DecodeError _ => true
  | .ConversionError _ => true
  | _ => false

/-- Verification-failure errors: a recomputed root differs from a claimed
root. -/
def VerifyError.isMismatch : VerifyError → Bool
  | .ReceiptRootMismatch _ _ _ _ => true
  | .TransactionRootMismatch _ _ => true
  | _ => false

/-- The inner receipt loop of `main`: convert each receipt in status order
(a conversion failure aborts with its message) and push its canonical
encoding onto the transaction-scoped accumulator. -/
def buildReceipts (C : Codec) (H : HashModel) :
    List GqlReceipt → MerkleRootCalculator →
    Except String MerkleRootCalculator
  | [], a => .ok a
  | g :: gs, a =>
    match C.convertReceipt g with
    | .error e => .error e
    | .ok r => buildReceipts C H gs (a.push H (C.encodeReceipt r))

/-- Convert a list of receipts in order, stopping at the first failure. -/
def convertAll (C : Codec) : List GqlReceipt → Except String (List Receipt)
  | [] => .ok []
  | g :: gs =>
    match C.convertReceipt g with
    | .error e => .error e
    | .ok r =>
      match convertAll C gs with
      | .error e => .error e
      | .ok rs => .ok (r :: rs)

/-- The per-transaction body of `main`'s loop, for a transaction whose
status yielded receipts `rs`: decode the raw payload (failure is fatal),
push the canonical re-encoding onto the block accumulator, and for a
Script transaction rebuild the receipts-root from a fresh accumulator and
compare it byte-exact to the embedded one. -/
def checkTx (C : Codec) (H : HashModel) (blockId : String)
    (acc : MerkleRootCalculator) (t : Tx) (rs : List GqlReceipt) :
    Except VerifyError MerkleRootCalculator :=
  match C.decodeTx t.rawPayload with
  | .error e => .error (.DecodeError e)
  | .ok txBody =>
    let acc' := acc.push H (C.encodeTx txBody)
    match txBody with
    | .NonScript _ => .ok acc'
    | .Script receiptRoot _ =>
      match buildReceipts C H rs .new with
      | .error e => .error (.ConversionError e)
      | .ok racc =>
        let calculated := racc.root H
        if receiptRoot ≠ calculated then
          .error (.ReceiptRootMismatch t.id blockId receiptRoot calculated)
        else .ok acc'

/-- One iteration of `main`'s transaction loop: a transaction whose status
is neither `SuccessStatus` nor `FailureStatus` is skipped outright
(`continue`), leaving the block accumulator untouched; otherwise the
transaction is checked with its status's receipts. -/
def step (C : Codec) (H : HashModel) (blockId : String)
    (acc : MerkleRootCalculator) (t : Tx) :
    Except VerifyError MerkleRootCalculator :=
  match t.status with
  | some (.SuccessStatus rs) => checkTx C H blockId acc t rs
  | some (.FailureStatus _ rs) => checkTx C H blockId acc t rs
  | _ => .ok acc

/-- `main`'s transaction loop: thread the block-level accumulator through
`step` over the transactions in block order, stopping at the first
error. -/
def runTxs (C : Codec) (H : HashModel) (blockId : String) :
    List Tx → MerkleRootCalculator → Except VerifyError MerkleRootCalculator
  | [], acc => .ok acc
  | t :: ts, acc =>
    match step C H blockId acc t with
    | .error e => .error e
    | .ok acc' => runTxs C H blockId ts acc'

/-- The whole verification pass of `main` after the fetch: run the
transaction loop from a fresh block-level accumulator, then compare the
accumulator's root byte-exact to the header's claimed transactions-root. -/
def verify (C : Codec) (H : HashModel) (b : Block) : Except VerifyError Unit :=
  match runTxs C H b.id b.transactions .new with
  | .error e => .error e
  | .ok acc =>
    let calculated := acc.root H
    if b.transactionsRoot ≠ calculated then
      .error (.TransactionRootMismatch b.transactionsRoot calculated)
    else .ok ()

/-- The leaf a transaction contributes to the block-level accumulator, when
it contributes one: its status must yield receipts and its payload must
decode, and the leaf is the canonical re-encoding of the decoded body. -/
def txLeaf (C : Codec) (t : Tx) : Option (List Nat) :=
  match statusReceipts t.status, C.decodeTx t.rawPayload with
  | some _, .ok txBody => some (C.encodeTx txBody)
  | _, _ => none

/-! ## Concrete instances for witnesses and counterexamples -/

/-- A concrete, injective hash scheme: digests are length-tagged byte
lists, so distinct inputs give distinct digests. -/
def H0 : HashModel where
  leafHash := fun l => 0 :: l
  nodeHash := fun a b => 2 :: a.length :: (a ++ b)
  emptyRoot := [3]

/-- A concrete codec: byte 0 tags a Script payload (receipts-root length,
then the root, then the script body), byte 1 tags a non-Script payload;
receipts starting with byte 9 fail conversion, all others convert to
themselves; encodings are the identity-shaped inverses. -/
def C0 : Codec where
  decodeTx := fun bs =>
    match bs with
    | 0 :: n :: rest => .ok (.Script (rest.take n) (rest.drop n))
    | 1 :: rest => .ok (.NonScript rest)
    | _ => .error "malformed transaction"
  encodeTx := fun t =>
    match t with
    | .Script r s => 0 :: r.length :: (r ++ s)
    | .NonScript p => 1 :: p
  convertReceipt := fun g =>
    match g with
    | 9 :: _ => .error "bad receipt"
    | _ => .ok g
  encodeReceipt := fun r => r

/-! ## Basic lemmas about the verifier loop -/

theorem step_of_statusReceipts_none (C : Codec) (H : HashModel)
    (bid : String) (acc : MerkleRootCalculator) (t : Tx)
    (h : statusReceipts t.status = none) :
    step C H bid acc t = .ok acc := by
  unfold step
  cases ht : t.status with
  | none => rfl
  | some s =>
    cases s with
    | SuccessStatus rs => rw [ht] at h; simp [statusReceipts] at h
    | FailureStatus r rs => rw [ht] at h; simp [statusReceipts] at h
    | OtherStatus => rfl

theorem step_of_statusReceipts_some (C : Codec) (H : HashModel)
    (bid : String) (acc : MerkleRootCalculator) (t : Tx)
    (rs : List GqlReceipt) (h : statusReceipts t.status = some rs) :
    step C H bid acc t = checkTx C H bid acc t rs := by
  unfold step
  cases ht : t.status with
  | none => rw [ht] at h; simp [statusReceipts] at h
  | some s =>
    cases s with
    | SuccessStatus rs' =>
      rw [ht] at h; simp [statusReceipts] at h; rw [h]
    | FailureStatus r rs' =>
      rw [ht] at h; simp [statusReceipts] at h; rw [h]
    | OtherStatus => rw [ht] at h; simp [statusReceipts] at h

/-! ## C1 — status neither Success nor Failure

The claim says such a transaction's encoding is still appended to the
block-level accumulator.  The code's `_ => continue` arm runs before the
push, so the transaction is skipped entirely. -/

/-- C1 counterexample: a single transaction with no status.  The loop
leaves the accumulator empty (`new`), verification accepts the empty root
for it, yet pushing the transaction's canonical encoding would have
changed the accumulator and the root — so the encoding is not appended and
does not contribute a leaf, contrary to the claim. -/
theorem c1_skipped_status_cex :
    runTxs C0 H0 "b" [⟨"t", [1, 7], none⟩] .new = .ok MerkleRootCalculator.new ∧
    verify C0 H0 ⟨"b", H0.emptyRoot, [⟨"t", [1, 7], none⟩]⟩ = .ok () ∧
    MerkleRootCalculator.push H0 MerkleRootCalculator.new
      (C0.encodeTx (.NonScript [7])) ≠ MerkleRootCalculator.new ∧
    computeRoot H0 [C0.encodeTx (.NonScript [7])] ≠ H0.emptyRoot := by
  refine ⟨rfl, rfl, ?_, ?_⟩ <;> decide

/-- C1 (amended): a transaction whose status is neither Success nor
Failure is excluded from receipt-root checking and is skipped entirely —
its canonical payload encoding is NOT appended to the block-level
accumulator, so it contributes no leaf to the computed
transactions-root. -/
theorem c1_skipped_status_not_appended (C : Codec) (H : HashModel)
    (bid : String) (acc : MerkleRootCalculator) (t : Tx)
    (h : statusReceipts t.status = none) :
    step C H bid acc t = .ok acc :=
  step_of_statusReceipts_none C H bid acc t h

/-- C1 witness: the amended theorem applied to a concrete status-less
transaction. -/
theorem c1_skipped_status_not_appended_w :
    step C0 H0 "b" MerkleRootCalculator.new ⟨"t", [1, 7], none⟩ =
      .ok MerkleRootCalculator.new :=
  c1_skipped_status_not_appended C0 H0 "b" MerkleRootCalculator.new _ rfl

theorem buildReceipts_of_convertAll_ok (C : Codec) (H : HashModel)
    (gs : List GqlReceipt) (rs : List Receipt) (a : MerkleRootCalculator)
    (h : convertAll C gs = .ok rs) :
    buildReceipts C H gs a = .ok (a.pushAll H (rs.map C.encodeReceipt)) := by
  induction gs generalizing rs a with
  | nil =>
    simp [convertAll] at h
    subst h
    simp [buildReceipts, MerkleRootCalculator.pushAll]
  | cons g gs ih =>
    unfold convertAll at h
    cases hc : C.convertReceipt g with
    | error e => rw [hc] at h; cases h
    | ok r =>
      rw [hc] at h
      cases hca : convertAll C gs with
      | error e => rw [hca] at h; cases h
      | ok rs' =>
        rw [hca] at h
        cases h
        unfold buildReceipts
        rw [hc]
        show buildReceipts C H gs (a.push H (C.encodeReceipt r)) = _
        rw [ih rs' _ hca]
        simp [MerkleRootCalculator.pushAll]

theorem buildReceipts_of_convertAll_error (C : Codec) (H : HashModel)
    (gs : List GqlReceipt) (e : String) (a : MerkleRootCalculator)
    (h : convertAll C gs = .error e) :
    buildReceipts C H gs a = .error e := by
  induction gs generalizing a with
  | nil => simp [convertAll] at h
  | cons g gs ih =>
    unfold convertAll at h
    cases hc : C.convertReceipt g with
    | error e' =>
      rw [hc] at h
      cases h
      unfold buildReceipts
      rw [hc]
    | ok r =>
      rw [hc] at h
      cases hca : convertAll C gs with
      | error e' =>
        rw [hca] at h
        cases h
        unfold buildReceipts
        rw [hc]
        exact ih _ hca
      | ok rs' => rw [hca] at h; cases h

theorem runTxs_ok_pushAll (C : Codec) (H : HashModel) (bid : String)
    (ts : List Tx) (acc acc' : MerkleRootCalculator)
    (h : runTxs C H bid ts acc = .ok acc') :
    acc' = acc.pushAll H (ts.filterMap (txLeaf C)) := by
  induction ts generalizing acc with
  | nil =>
    simp [runTxs] at h
    subst h
    simp [MerkleRootCalculator.pushAll]
  | cons t ts ih =>
    unfold runTxs at h
    cases hs : step C H bid acc t with
    | error e => rw [hs] at h; cases h
    | ok a1 =>
      rw [hs] at h
      cases hsr : statusReceipts t.status with
      | none =>
        rw [step_of_statusReceipts_none C H bid acc t hsr] at hs
        cases hs
        have hleaf : txLeaf C t = none := by simp [txLeaf, hsr]
        rw [List.filterMap_cons, hleaf]
        exact ih _ h
      | some rs =>
        rw [step_of_statusReceipts_some C H bid acc t rs hsr] at hs
        unfold checkTx at hs
        cases hd : C.decodeTx t.rawPayload with
        | error e => rw [hd] at hs; cases hs
        | ok body =>
          rw [hd] at hs
          have hleaf : txLeaf C t = some (C.encodeTx body) := by
            simp [txLeaf, hsr, hd]
          rw [List.filterMap_cons, hleaf]
          cases body with
          | NonScript p =>
            simp only at hs
            cases hs
            simpa [MerkleRootCalculator.pushAll] using ih _ h
          | Script rRoot scr =>
            cases hb : buildReceipts C H rs .new with
            | error e => simp [hb] at hs
            | ok racc =>
              by_cases hr : rRoot = MerkleRootCalculator.root H racc
              · simp [hb, hr] at hs
                subst hs
                rw [hr]
                simpa [MerkleRootCalculator.pushAll] using ih _ h
              · simp [hb, hr] at hs

theorem runTxs_cons (C : Codec) (H : HashModel) (bid : String) (t : Tx)
    (ts : List Tx) (acc : MerkleRootCalculator) :
    runTxs C H bid (t :: ts) acc =
      match step C H bid acc t with
      | .error e => .error e
      | .ok a => runTxs C H bid ts a := rfl

theorem runTxs_append (C : Codec) (H : HashModel) (bid : String)
    (pre post : List Tx) (acc : MerkleRootCalculator) :
    runTxs C H bid (pre ++ post) acc =
      match runTxs C H bid pre acc with
      | .error e => .error e
      | .ok a => runTxs C H bid post a := by
  induction pre generalizing acc with
  | nil => simp [runTxs]
  | cons t ts ih =>
    rw [List.cons_append, runTxs_cons, runTxs_cons]
    cases hs : step C H bid acc t with
    | error e => rfl
    | ok a1 => exact ih a1

/-! ## C2 — transactions-root over the block's transactions

The first half of the claim ("over the canonical encodings of the block's
transactions") fails for a block containing a transaction with no
retrievable status, which the loop skips (see C1); the root is computed
over the Success/Failure-status transactions only.  The "including
Failure-status transactions" half and the failed-transaction-inclusion
half hold. -/

/-- A Success-status Script transaction with one receipt `[5]` whose
embedded receipts-root matches. -/
def succTx : Tx := ⟨"ts", [0, 2, 0, 5, 4], some (.SuccessStatus [[5]])⟩

/-- A Failure-status Script transaction with one receipt `[6]` whose
embedded receipts-root matches. -/
def failTx : Tx := ⟨"tf", [0, 2, 0, 6, 8], some (.FailureStatus "out of gas" [[6]])⟩

/-- A block holding `succTx` and `failTx` whose header claims exactly the
root of their canonical encodings. -/
def failBlock : Block :=
  ⟨"bf", computeRoot H0 [[0, 2, 0, 5, 4], [0, 2, 0, 6, 8]], [succTx, failTx]⟩

/-- C2 counterexample: a block whose second transaction has no status.
The claimed root over the encodings of ALL the block's transactions is
rejected — the code computes the root over the status-bearing transaction
only, and the two roots differ. -/
theorem c2_root_over_all_transactions_cex :
    verify C0 H0 ⟨"b", computeRoot H0 [[1, 4], [1, 7]],
        [⟨"t1", [1, 4], some (.SuccessStatus [])⟩, ⟨"t2", [1, 7], none⟩]⟩ =
      .error (.TransactionRootMismatch (computeRoot H0 [[1, 4], [1, 7]])
        (computeRoot H0 [[1, 4]])) ∧
    computeRoot H0 [[1, 4], [1, 7]] ≠ computeRoot H0 [[1, 4]] := by
  exact ⟨rfl, by decide⟩

/-- C2 (amended): the computed transactions-root is the Merkle root over
the canonical encodings of the block's Success- or Failure-status
transactions in block order (status-less transactions are skipped),
including transactions whose status is Failure; and a block containing a
Failure-status transaction still verifies successfully when its encoding
and receipts are correctly included in both trees. -/
theorem c2_root_over_processed_encodings :
    (∀ (C : Codec) (H : HashModel) (b : Block) (acc : MerkleRootCalculator),
      runTxs C H b.id b.transactions .new = .ok acc →
      acc.root H = computeRoot H (b.transactions.filterMap (txLeaf C))) ∧
    verify C0 H0 failBlock = .ok () := by
  constructor
  · intro C H b acc h
    rw [runTxs_ok_pushAll C H b.id b.transactions _ acc h]
    rfl
  · rfl

/-- C2 witness: the block-level root equation applied to the concrete
fixture block containing a Failure-status transaction. -/
theorem c2_root_over_processed_encodings_w :
    MerkleRootCalculator.root H0
        (MerkleRootCalculator.pushAll H0 .new [[0, 2, 0, 5, 4], [0, 2, 0, 6, 8]]) =
      computeRoot H0 (failBlock.transactions.filterMap (txLeaf C0)) :=
  c2_root_over_processed_encodings.1 C0 H0 failBlock
    (MerkleRootCalculator.pushAll H0 .new [[0, 2, 0, 5, 4], [0, 2, 0, 6, 8]]) rfl

/-! ## C6 — non-Script transactions -/

/-- C6: a Success- or Failure-status transaction whose decoded kind is not
Script is never receipt-checked — the step succeeds unconditionally, no
comparison and no receipt conversion is performed (the receipts may even
be unconvertible) — yet its canonical encoding is appended to the
block-level accumulator. -/
theorem c6_nonscript_appended_unchecked (C : Codec) (H : HashModel)
    (bid : String) (acc : MerkleRootCalculator) (t : Tx)
    (rs : List GqlReceipt) (p : List Nat)
    (hs : statusReceipts t.status = some rs)
    (hd : C.decodeTx t.rawPayload = .ok (.NonScript p)) :
    step C H bid acc t = .ok (acc.push H (C.encodeTx (.NonScript p))) := by
  rw [step_of_statusReceipts_some C H bid acc t rs hs]
  unfold checkTx
  rw [hd]

/-- C6 witness: a concrete non-Script transaction whose receipt `[9]`
would fail conversion; the step still succeeds and appends the
encoding. -/
theorem c6_nonscript_appended_unchecked_w :
    step C0 H0 "b" MerkleRootCalculator.new
        ⟨"tn", [1, 4], some (.SuccessStatus [[9]])⟩ =
      .ok (MerkleRootCalculator.push H0 .new (C0.encodeTx (.NonScript [4]))) :=
  c6_nonscript_appended_unchecked C0 H0 "b" MerkleRootCalculator.new
    ⟨"tn", [1, 4], some (.SuccessStatus [[9]])⟩ [[9]] [4] rfl rfl

/-! ## C7 — final block-root comparison -/

/-- C7: once the loop over all transactions ends without error, `verify`
compares the accumulator's root byte-exact against the header's claimed
transactions-root: equality yields success, inequality yields a
transactions-root-mismatch error carrying the expected (header) and actual
(computed) digests. -/
theorem c7_final_root_comparison (C : Codec) (H : HashModel) (b : Block)
    (acc : MerkleRootCalculator)
    (h : runTxs C H b.id b.transactions .new = .ok acc) :
    verify C H b =
      if b.transactionsRoot = acc.root H then .ok ()
      else .error (.TransactionRootMismatch b.transactionsRoot (acc.root H)) := by
  unfold verify
  rw [h]
  by_cases he : b.transactionsRoot = acc.root H <;> simp [he]

/-- C7 witness: the comparison equation applied to an empty concrete
block whose header claims the canonical empty digest. -/
theorem c7_final_root_comparison_w :
    verify C0 H0 ⟨"b", [3], []⟩ =
      if ([3] : Digest) = MerkleRootCalculator.root H0 MerkleRootCalculator.new
      then .ok ()
      else .error (.TransactionRootMismatch [3]
        (MerkleRootCalculator.root H0 MerkleRootCalculator.new)) :=
  c7_final_root_comparison C0 H0 ⟨"b", [3], []⟩ MerkleRootCalculator.new rfl

/-! ## Helper equations for `checkTx` -/

theorem checkTx_script_eq (C : Codec) (H : HashModel) (bid : String)
    (acc : MerkleRootCalculator) (t : Tx) (rs : List GqlReceipt)
    (rRoot : Digest) (scr : List Nat) (rcpts : List Receipt)
    (hd : C.decodeTx t.rawPayload = .ok (.Script rRoot scr))
    (hc : convertAll C rs = .ok rcpts) :
    checkTx C H bid acc t rs =
      if rRoot = computeRoot H (rcpts.map C.encodeReceipt)
      then .ok (acc.push H (C.encodeTx (.Script rRoot scr)))
      else .error (.ReceiptRootMismatch t.id bid rRoot
        (computeRoot H (rcpts.map C.encodeReceipt))) := by
  unfold checkTx
  rw [hd]
  show (match buildReceipts C H rs MerkleRootCalculator.new with
    | Except.error e => Except.error (VerifyError.ConversionError e)
    | Except.ok racc =>
      if rRoot ≠ MerkleRootCalculator.root H racc then
        Except.error (VerifyError.ReceiptRootMismatch t.id bid rRoot
          (MerkleRootCalculator.root H racc))
      else Except.ok (MerkleRootCalculator.push H acc
        (C.encodeTx (TypedTx.Script rRoot scr)))) = _
  rw [buildReceipts_of_convertAll_ok C H rs rcpts .new hc]
  show (if rRoot ≠ MerkleRootCalculator.root H
      (MerkleRootCalculator.pushAll H MerkleRootCalculator.new
        (rcpts.map C.encodeReceipt)) then
    Except.error (VerifyError.ReceiptRootMismatch t.id bid rRoot
      (MerkleRootCalculator.root H (MerkleRootCalculator.pushAll H
        MerkleRootCalculator.new (rcpts.map C.encodeReceipt))))
  else Except.ok (MerkleRootCalculator.push H acc
    (C.encodeTx (TypedTx.Script rRoot scr)))) = _
  by_cases hr : rRoot = computeRoot H (rcpts.map C.encodeReceipt)
  · have hr' : rRoot = MerkleRootCalculator.root H
        (MerkleRootCalculator.pushAll H MerkleRootCalculator.new
          (rcpts.map C.encodeReceipt)) := hr
    rw [if_pos hr, if_neg (not_not_intro hr')]
  · have hr' : ¬(rRoot = MerkleRootCalculator.root H
        (MerkleRootCalculator.pushAll H MerkleRootCalculator.new
          (rcpts.map C.encodeReceipt))) := hr
    rw [if_neg hr, if_pos hr']
    rfl

theorem checkTx_decode_error (C : Codec) (H : HashModel) (bid : String)
    (acc : MerkleRootCalculator) (t : Tx) (rs : List GqlReceipt) (m : String)
    (hd : C.decodeTx t.rawPayload = .error m) :
    checkTx C H bid acc t rs = .error (.DecodeError m) := by
  unfold checkTx
  rw [hd]

theorem checkTx_convert_error (C : Codec) (H : HashModel) (bid : String)
    (acc : MerkleRootCalculator) (t : Tx) (rs : List GqlReceipt)
    (rRoot : Digest) (scr : List Nat) (m : String)
    (hd : C.decodeTx t.rawPayload = .ok (.Script rRoot scr))
    (hc : convertAll C rs = .error m) :
    checkTx C H bid acc t rs = .error (.ConversionError m) := by
  unfold checkTx
  rw [hd]
  show (match buildReceipts C H rs MerkleRootCalculator.new with
    | Except.error e => Except.error (VerifyError.ConversionError e)
    | Except.ok racc =>
      if rRoot ≠ MerkleRootCalculator.root H racc then
        Except.error (VerifyError.ReceiptRootMismatch t.id bid rRoot
          (MerkleRootCalculator.root H racc))
      else Except.ok (MerkleRootCalculator.push H acc
        (C.encodeTx (TypedTx.Script rRoot scr)))) = _
  rw [buildReceipts_of_convertAll_error C H rs m .new hc]

theorem checkTx_ne_txRootMismatch (C : Codec) (H : HashModel) (bid : String)
    (acc : MerkleRootCalculator) (t : Tx) (rs : List GqlReceipt)
    (exp act : Digest) :
    checkTx C H bid acc t rs ≠ .error (.TransactionRootMismatch exp act) := by
  unfold checkTx
  cases hd : C.decodeTx t.rawPayload with
  | error e => simp
  | ok body =>
    cases body with
    | NonScript p => simp
    | Script rRoot scr =>
      cases hb : buildReceipts C H rs .new with
      | error e => simp
      | ok racc =>
        by_cases hr : rRoot = MerkleRootCalculator.root H racc <;> simp [hr]

theorem step_ne_txRootMismatch (C : Codec) (H : HashModel) (bid : String)
    (acc : MerkleRootCalculator) (t : Tx) (exp act : Digest) :
    step C H bid acc t ≠ .error (.TransactionRootMismatch exp act) := by
  unfold step
  cases t.status with
  | none => simp
  | some s =>
    cases s with
    | SuccessStatus rs => exact checkTx_ne_txRootMismatch C H bid acc t rs exp act
    | FailureStatus r rs => exact checkTx_ne_txRootMismatch C H bid acc t rs exp act
    | OtherStatus => simp

theorem runTxs_ne_txRootMismatch (C : Codec) (H : HashModel) (bid : String) :
    ∀ (ts : List Tx) (acc : MerkleRootCalculator) (exp act : Digest),
    runTxs C H bid ts acc ≠ .error (.TransactionRootMismatch exp act) := by
  intro ts
  induction ts with
  | nil => intro acc exp act; simp [runTxs]
  | cons t ts ih =>
    intro acc exp act
    rw [runTxs_cons]
    cases hs : step C H bid acc t with
    | error e =>
      intro h
      cases h
      exact step_ne_txRootMismatch C H bid acc t exp act hs
    | ok a1 => exact ih a1 exp act

theorem runTxs_append_ok (C : Codec) (H : HashModel) (bid : String)
    (pre post : List Tx) (acc a : MerkleRootCalculator)
    (h : runTxs C H bid pre acc = .ok a) :
    runTxs C H bid (pre ++ post) acc = runTxs C H bid post a := by
  rw [runTxs_append, h]

/-! ## C3 — Script receipt-root check -/

/-- C3: for a Script transaction with a Success or Failure status whose
receipts all convert, the step recomputes the receipts-root over the
canonical receipt encodings in status order from a fresh accumulator and
compares it byte-exact to the embedded receipts-root: equality passes the
transaction (its encoding is appended), inequality fails it with a
receipt-root-mismatch error. -/
theorem c3_script_receipt_check (C : Codec) (H : HashModel) (bid : String)
    (acc : MerkleRootCalculator) (t : Tx) (rs : List GqlReceipt)
    (rRoot : Digest) (scr : List Nat) (rcpts : List Receipt)
    (hs : statusReceipts t.status = some rs)
    (hd : C.decodeTx t.rawPayload = .ok (.Script rRoot scr))
    (hc : convertAll C rs = .ok rcpts) :
    step C H bid acc t =
      if rRoot = computeRoot H (rcpts.map C.encodeReceipt)
      then .ok (acc.push H (C.encodeTx (.Script rRoot scr)))
      else .error (.ReceiptRootMismatch t.id bid rRoot
        (computeRoot H (rcpts.map C.encodeReceipt))) := by
  rw [step_of_statusReceipts_some C H bid acc t rs hs]
  exact checkTx_script_eq C H bid acc t rs rRoot scr rcpts hd hc

/-- C3 witness: the receipt check applied to the concrete Success-status
Script transaction `succTx`, whose embedded root `[0, 5]` equals the
recomputed root of its single receipt `[5]`. -/
theorem c3_script_receipt_check_w :
    step C0 H0 "b" MerkleRootCalculator.new succTx =
      if ([0, 5] : Digest) = computeRoot H0 ([[5]].map C0.encodeReceipt)
      then .ok (MerkleRootCalculator.push H0 .new
        (C0.encodeTx (.Script [0, 5] [4])))
      else .error (.ReceiptRootMismatch succTx.id "b" [0, 5]
        (computeRoot H0 ([[5]].map C0.encodeReceipt))) :=
  c3_script_receipt_check C0 H0 "b" MerkleRootCalculator.new succTx
    [[5]] [0, 5] [4] [[5]] rfl rfl rfl

/-! ## C4 — receipt mismatch fails fast -/

/-- C4: when a transaction's recomputed receipt root differs from its
embedded receipts-root, verification of the whole block fails with a
receipt-root-mismatch error carrying that transaction's id, the block id,
the embedded (expected) digest and the recomputed (actual) digest — for
every suffix of later transactions, none of which is processed; and a
transactions-root mismatch is only reachable when the transaction loop
finished without any receipt mismatch (or other error). -/
theorem c4_receipt_mismatch_fail_fast :
    (∀ (C : Codec) (H : HashModel) (b : Block) (pre post : List Tx) (t : Tx)
      (a : MerkleRootCalculator) (rs : List GqlReceipt) (rRoot : Digest)
      (scr : List Nat) (rcpts : List Receipt),
      b.transactions = pre ++ t :: post →
      runTxs C H b.id pre .new = .ok a →
      statusReceipts t.status = some rs →
      C.decodeTx t.rawPayload = .ok (.Script rRoot scr) →
      convertAll C rs = .ok rcpts →
      rRoot ≠ computeRoot H (rcpts.map C.encodeReceipt) →
      verify C H b = .error (.ReceiptRootMismatch t.id b.id rRoot
        (computeRoot H (rcpts.map C.encodeReceipt)))) ∧
    (∀ (C : Codec) (H : HashModel) (b : Block) (exp act : Digest),
      verify C H b = .error (.TransactionRootMismatch exp act) →
      ∃ a, runTxs C H b.id b.transactions .new = .ok a) := by
  constructor
  · intro C H b pre post t a rs rRoot scr rcpts htxs hpre hs hd hc hne
    have hstep : step C H b.id a t = .error (.ReceiptRootMismatch t.id b.id
        rRoot (computeRoot H (rcpts.map C.encodeReceipt))) := by
      rw [step_of_statusReceipts_some C H b.id a t rs hs,
        checkTx_script_eq C H b.id a t rs rRoot scr rcpts hd hc, if_neg hne]
    have hrun : runTxs C H b.id b.transactions .new =
        .error (.ReceiptRootMismatch t.id b.id rRoot
          (computeRoot H (rcpts.map C.encodeReceipt))) := by
      rw [htxs, runTxs_append_ok C H b.id pre (t :: post) .new a hpre,
        runTxs_cons, hstep]
    unfold verify
    rw [hrun]
  · intro C H b exp act h
    unfold verify at h
    cases hr : runTxs C H b.id b.transactions .new with
    | error e =>
      rw [hr] at h
      cases h
      exact absurd hr (runTxs_ne_txRootMismatch C H b.id b.transactions _ exp act)
    | ok a => exact ⟨a, rfl⟩

/-! ## C5 — decode and conversion failures are fatal -/

/-- C4 witness: a concrete block whose first transaction is a Script
transaction with embedded root `[7]` but recomputed receipt root `[0, 5]`;
verification fails with exactly that receipt-root mismatch, whatever
transaction follows. -/
theorem c4_receipt_mismatch_fail_fast_w :
    verify C0 H0 ⟨"b", [3], [⟨"t", [0, 1, 7, 4], some (.SuccessStatus [[5]])⟩,
        ⟨"t2", [2, 2], some (.SuccessStatus [])⟩]⟩ =
      .error (.ReceiptRootMismatch "t" "b" [7]
        (computeRoot H0 ([[5]].map C0.encodeReceipt))) :=
  c4_receipt_mismatch_fail_fast.1 C0 H0
    ⟨"b", [3], [⟨"t", [0, 1, 7, 4], some (.SuccessStatus [[5]])⟩,
      ⟨"t2", [2, 2], some (.SuccessStatus [])⟩]⟩
    [] [⟨"t2", [2, 2], some (.SuccessStatus [])⟩]
    ⟨"t", [0, 1, 7, 4], some (.SuccessStatus [[5]])⟩
    MerkleRootCalculator.new [[5]] [7] [4] [[5]]
    rfl rfl rfl rfl rfl (by decide)

/-- C5: a Success- or Failure-status transaction whose payload fails to
decode, or a Script transaction one of whose receipts fails to convert,
aborts verification of the whole block immediately — for every suffix of
later transactions — with a fatal error (`DecodeError` resp.
`ConversionError`) that is not a root mismatch. -/
theorem c5_fatal_decode_abort :
    (∀ (C : Codec) (H : HashModel) (b : Block) (pre post : List Tx) (t : Tx)
      (a : MerkleRootCalculator) (rs : List GqlReceipt) (m : String),
      b.transactions = pre ++ t :: post →
      runTxs C H b.id pre .new = .ok a →
      statusReceipts t.status = some rs →
      C.decodeTx t.rawPayload = .error m →
      verify C H b = .error (.DecodeError m) ∧
        (VerifyError.DecodeError m).isFatal = true ∧
        (VerifyError.DecodeError m).isMismatch = false) ∧
    (∀ (C : Codec) (H : HashModel) (b : Block) (pre post : List Tx) (t : Tx)
      (a : MerkleRootCalculator) (rs : List GqlReceipt) (rRoot : Digest)
      (scr : List Nat) (m : String),
      b.transactions = pre ++ t :: post →
      runTxs C H b.id pre .new = .ok a →
      statusReceipts t.status = some rs →
      C.decodeTx t.rawPayload = .ok (.Script rRoot scr) →
      convertAll C rs = .error m →
      verify C H b = .error (.ConversionError m) ∧
        (VerifyError.ConversionError m).isFatal = true ∧
        (VerifyError.ConversionError m).isMismatch = false) := by
  constructor
  · intro C H b pre post t a rs m htxs hpre hs hd
    refine ⟨?_, rfl, rfl⟩
    have hstep : step C H b.id a t = .error (.DecodeError m) := by
      rw [step_of_statusReceipts_some C H b.id a t rs hs]
      exact checkTx_decode_error C H b.id a t rs m hd
    have hrun : runTxs C H b.id b.transactions .new = .error (.DecodeError m) := by
      rw [htxs, runTxs_append_ok C H b.id pre (t :: post) .new a hpre,
        runTxs_cons, hstep]
    unfold verify
    rw [hrun]
  · intro C H b pre post t a rs rRoot scr m htxs hpre hs hd hc
    refine ⟨?_, rfl, rfl⟩
    have hstep : step C H b.id a t = .error (.ConversionError m) := by
      rw [step_of_statusReceipts_some C H b.id a t rs hs]
      exact checkTx_convert_error C H b.id a t rs rRoot scr m hd hc
    have hrun : runTxs C H b.id b.transactions .new =
        .error (.ConversionError m) := by
      rw [htxs, runTxs_append_ok C H b.id pre (t :: post) .new a hpre,
        runTxs_cons, hstep]
    unfold verify
    rw [hrun]

/-- C5 witness: a concrete block whose first transaction's payload `[2, 2]`
is malformed; verification aborts with the fatal decode error even though
a further transaction follows. -/
theorem c5_fatal_decode_abort_w :
    verify C0 H0 ⟨"b", [3], [⟨"t", [2, 2], some (.SuccessStatus [])⟩,
        ⟨"t2", [1, 4], some (.SuccessStatus [])⟩]⟩ =
      .error (.DecodeError "malformed transaction") ∧
    (VerifyError.DecodeError "malformed transaction").isFatal = true ∧
    (VerifyError.DecodeError "malformed transaction").isMismatch = false :=
  c5_fatal_decode_abort.1 C0 H0
    ⟨"b", [3], [⟨"t", [2, 2], some (.SuccessStatus [])⟩,
      ⟨"t2", [1, 4], some (.SuccessStatus [])⟩]⟩
    [] [⟨"t2", [1, 4], some (.SuccessStatus [])⟩]
    ⟨"t", [2, 2], some (.SuccessStatus [])⟩
    MerkleRootCalculator.new [] "malformed transaction" rfl rfl rfl rfl

/-! ## C8, C9 — accumulator root: empty input, totality, determinism -/

/-- C8: the root of an accumulator holding zero leaves is the fixed
canonical empty digest, not an error; and `root` is callable at any point
of the accumulator's life — after any sequence of pushes it returns the
pure deterministic function `computeRoot` of the accumulated leaves. -/
theorem c8_empty_root_and_total :
    (∀ H : HashModel,
      MerkleRootCalculator.root H (MerkleRootCalculator.pushAll H .new []) =
        H.emptyRoot) ∧
    (∀ (H : HashModel) (ls : List (List Nat)),
      MerkleRootCalculator.root H (MerkleRootCalculator.pushAll H .new ls) =
        computeRoot H ls) :=
  ⟨fun _ => rfl, fun _ _ => rfl⟩

/-- C9: the accumulator's root is deterministic — two computations over
equal leaf sequences, each through its own fresh accumulator, yield
identical digests; the root depends on nothing but the leaves and their
order. -/
theorem c9_root_deterministic (H : HashModel) (L1 L2 : List (List Nat))
    (h : L1 = L2) :
    MerkleRootCalculator.root H (MerkleRootCalculator.pushAll H .new L1) =
      MerkleRootCalculator.root H (MerkleRootCalculator.pushAll H .new L2) := by
  rw [h]

/-- C9 witness: determinism applied to a concrete two-leaf sequence. -/
theorem c9_root_deterministic_w :
    MerkleRootCalculator.root H0
        (MerkleRootCalculator.pushAll H0 .new [[1], [2]]) =
      MerkleRootCalculator.root H0
        (MerkleRootCalculator.pushAll H0 .new [[1], [2]]) :=
  c9_root_deterministic H0 [[1], [2]] [[1], [2]] rfl

/-! ## Perfect-subtree decomposition of the accumulator stack

Every stack entry produced by pushing leaves is the hash of a perfect
binary subtree over a contiguous chunk of the leaf sequence; this lets the
leaf sequence be recovered from the root when the hash functions are
injective (the idealised collision-free reading). -/

/-- The digest of a perfect binary subtree of height `k` over a chunk of
`2 ^ k` leaves. -/
def ptHash (H : HashModel) : Nat → List (List Nat) → Digest
  | 0, ls => H.leafHash (ls.headD [])
  | k + 1, ls =>
    H.nodeHash (ptHash H k (ls.take (2 ^ k))) (ptHash H k (ls.drop (2 ^ k)))

/-- The stack `s` decomposes the leaf sequence `L`: each entry `(d, k)`,
from the most recent down, is the perfect-subtree hash of the last
`2 ^ k` leaves not covered by more recent entries. -/
def IsDecomp (H : HashModel) : List (Digest × Nat) → List (List Nat) → Prop
  | [], L => L = []
  | (d, k) :: rest, L =>
    ∃ front chunk, L = front ++ chunk ∧ chunk.length = 2 ^ k ∧
      d = ptHash H k chunk ∧ IsDecomp H rest front

theorem isDecomp_nil (H : HashModel) (L : List (List Nat)) :
    IsDecomp H [] L ↔ L = [] := Iff.rfl

theorem isDecomp_cons (H : HashModel) (d : Digest) (k : Nat)
    (rest : List (Digest × Nat)) (L : List (List Nat)) :
    IsDecomp H ((d, k) :: rest) L ↔
      ∃ front chunk, L = front ++ chunk ∧ chunk.length = 2 ^ k ∧
        d = ptHash H k chunk ∧ IsDecomp H rest front := Iff.rfl

/-- Injectivity of the two-child hash, as used throughout: a node digest
determines both children. -/
def NodeInj (H : HashModel) : Prop :=
  ∀ a b a' b', H.nodeHash a b = H.nodeHash a' b' → a = a' ∧ b = b'

theorem ptHash_inj (H : HashModel) (hLI : Function.Injective H.leafHash)
    (hNI : NodeInj H) :
    ∀ (k : Nat) (c1 c2 : List (List Nat)), c1.length = 2 ^ k →
      c2.length = 2 ^ k → ptHash H k c1 = ptHash H k c2 → c1 = c2 := by
  intro k
  induction k with
  | zero =>
    intro c1 c2 h1 h2 h
    obtain ⟨x1, hx1⟩ := List.length_eq_one.mp (by simpa using h1)
    obtain ⟨x2, hx2⟩ := List.length_eq_one.mp (by simpa using h2)
    subst hx1
    subst hx2
    have : x1 = x2 := hLI (by simpa [ptHash] using h)
    rw [this]
  | succ k ih =>
    intro c1 c2 h1 h2 h
    rw [ptHash, ptHash] at h
    obtain ⟨hl, hr⟩ := hNI _ _ _ _ h
    have hpow : 2 ^ k ≤ 2 ^ (k + 1) := Nat.pow_le_pow_right (by omega) (by omega)
    have ht1 : (c1.take (2 ^ k)).length = 2 ^ k := by
      rw [List.length_take, h1]; omega
    have ht2 : (c2.take (2 ^ k)).length = 2 ^ k := by
      rw [List.length_take, h2]; omega
    have hd1 : (c1.drop (2 ^ k)).length = 2 ^ k := by
      rw [List.length_drop, h1, pow_succ]; omega
    have hd2 : (c2.drop (2 ^ k)).length = 2 ^ k := by
      rw [List.length_drop, h2, pow_succ]; omega
    have e1 := ih _ _ ht1 ht2 hl
    have e2 := ih _ _ hd1 hd2 hr
    calc c1 = c1.take (2 ^ k) ++ c1.drop (2 ^ k) := (List.take_append_drop _ _).symm
      _ = c2.take (2 ^ k) ++ c2.drop (2 ^ k) := by rw [e1, e2]
      _ = c2 := List.take_append_drop _ _

theorem mergeAux_isDecomp (H : HashModel) :
    ∀ (fuel : Nat) (s : List (Digest × Nat)) (L : List (List Nat)),
      IsDecomp H s L → IsDecomp H (MerkleRootCalculator.mergeAux H fuel s) L := by
  intro fuel
  induction fuel with
  | zero => intro s L h; simpa [MerkleRootCalculator.mergeAux] using h
  | succ n ih =>
    intro s L h
    match s with
    | [] => simpa [MerkleRootCalculator.mergeAux] using h
    | [x] => simpa [MerkleRootCalculator.mergeAux] using h
    | (d1, k1) :: (d2, k2) :: rest =>
      by_cases hh : k1 = k2
      · rw [MerkleRootCalculator.mergeAux, if_pos hh]
        subst hh
        rw [isDecomp_cons] at h
        obtain ⟨f1, c1, hL, hc1, hd1, hrest⟩ := h
        rw [isDecomp_cons] at hrest
        obtain ⟨f2, c2, hf1, hc2, hd2, hrest2⟩ := hrest
        apply ih
        rw [isDecomp_cons]
        refine ⟨f2, c2 ++ c1, ?_, ?_, ?_, hrest2⟩
        · rw [hL, hf1, List.append_assoc]
        · rw [List.length_append, hc1, hc2, pow_succ]; omega
        · rw [ptHash, hd1, hd2]
          have htake : (c2 ++ c1).take (2 ^ k1) = c2 := by
            rw [← hc2]; exact List.take_left c2 c1
          have hdrop : (c2 ++ c1).drop (2 ^ k1) = c1 := by
            rw [← hc2]; exact List.drop_left c2 c1
          rw [htake, hdrop]
      · rw [MerkleRootCalculator.mergeAux, if_neg hh]
        exact h

theorem push_isDecomp (H : HashModel) (a : MerkleRootCalculator)
    (L : List (List Nat)) (leaf : List Nat) (h : IsDecomp H a.stack L) :
    IsDecomp H (a.push H leaf).stack (L ++ [leaf]) := by
  unfold MerkleRootCalculator.push
  apply mergeAux_isDecomp
  rw [isDecomp_cons]
  exact ⟨L, [leaf], rfl, by simp, rfl, h⟩

theorem pushAll_isDecomp (H : HashModel) :
    ∀ (ls : List (List Nat)) (a : MerkleRootCalculator) (L : List (List Nat)),
      IsDecomp H a.stack L →
      IsDecomp H (MerkleRootCalculator.pushAll H a ls).stack (L ++ ls) := by
  intro ls
  induction ls with
  | nil =>
    intro a L h
    simpa [MerkleRootCalculator.pushAll] using h
  | cons l ls ih =>
    intro a L h
    have h1 := push_isDecomp H a L l h
    have h2 := ih (a.push H l) (L ++ [l]) h1
    simpa [MerkleRootCalculator.pushAll] using h2

theorem pushAll_new_isDecomp (H : HashModel) (ls : List (List Nat)) :
    IsDecomp H (MerkleRootCalculator.pushAll H .new ls).stack ls := by
  have := pushAll_isDecomp H ls .new [] rfl
  simpa using this

/-! The heights in the stack depend only on how many leaves were pushed,
never on their bytes or on the hash scheme. -/

/-- The heights-only image of the merge loop. -/
def hmergeAux : Nat → List Nat → List Nat
  | 0, s => s
  | _ + 1, [] => []
  | _ + 1, [x] => [x]
  | fuel + 1, k1 :: k2 :: rest =>
    if k1 = k2 then hmergeAux fuel ((k1 + 1) :: rest)
    else k1 :: k2 :: rest

theorem map_snd_mergeAux (H : HashModel) :
    ∀ (fuel : Nat) (s : List (Digest × Nat)),
      (MerkleRootCalculator.mergeAux H fuel s).map Prod.snd =
        hmergeAux fuel (s.map Prod.snd) := by
  intro fuel
  induction fuel with
  | zero => intro s; rfl
  | succ n ih =>
    intro s
    match s with
    | [] => rfl
    | [x] => rfl
    | (d1, k1) :: (d2, k2) :: rest =>
      by_cases hh : k1 = k2
      · rw [MerkleRootCalculator.mergeAux, if_pos hh]
        rw [List.map_cons, List.map_cons, hmergeAux, if_pos hh]
        exact ih _
      · rw [MerkleRootCalculator.mergeAux, if_neg hh]
        rw [List.map_cons, List.map_cons, hmergeAux, if_neg hh]

theorem map_snd_push (H : HashModel) (a : MerkleRootCalculator)
    (leaf : List Nat) :
    (a.push H leaf).stack.map Prod.snd =
      hmergeAux (a.stack.length + 1) (0 :: a.stack.map Prod.snd) := by
  unfold MerkleRootCalculator.push
  rw [map_snd_mergeAux]
  rfl

theorem map_snd_pushAll (H H' : HashModel) :
    ∀ (ls ls' : List (List Nat)) (a a' : MerkleRootCalculator),
      ls.length = ls'.length →
      a.stack.map Prod.snd = a'.stack.map Prod.snd →
      (MerkleRootCalculator.pushAll H a ls).stack.map Prod.snd =
        (MerkleRootCalculator.pushAll H' a' ls').stack.map Prod.snd := by
  intro ls
  induction ls with
  | nil =>
    intro ls' a a' hlen hsh
    have : ls' = [] := List.length_eq_zero.mp (by simpa using hlen.symm)
    subst this
    simpa [MerkleRootCalculator.pushAll] using hsh
  | cons l ls ih =>
    intro ls' a a' hlen hsh
    cases ls' with
    | nil => simp at hlen
    | cons l' ls'' =>
      have hlen' : ls.length = ls''.length := by simpa using hlen
      have hstklen : a.stack.length = a'.stack.length := by
        have := congrArg List.length hsh
        simpa using this
      have hsh' : (a.push H l).stack.map Prod.snd =
          (a'.push H' l').stack.map Prod.snd := by
        rw [map_snd_push, map_snd_push, hsh, hstklen]
      simpa [MerkleRootCalculator.pushAll] using ih ls'' (a.push H l) (a'.push H' l') hlen' hsh'

theorem rootFold_inj (H : HashModel) (hNI : NodeInj H) :
    ∀ (r1 r2 : List (Digest × Nat)) (n1 n2 : Digest),
      r1.map Prod.snd = r2.map Prod.snd →
      MerkleRootCalculator.rootFold H n1 r1 =
        MerkleRootCalculator.rootFold H n2 r2 →
      n1 = n2 ∧ r1.map Prod.fst = r2.map Prod.fst := by
  intro r1
  induction r1 with
  | nil =>
    intro r2 n1 n2 hsh h
    have : r2 = [] := List.map_eq_nil_iff.mp hsh.symm
    subst this
    exact ⟨h, rfl⟩
  | cons x r1 ih =>
    intro r2 n1 n2 hsh h
    cases r2 with
    | nil => simp at hsh
    | cons y r2 =>
      obtain ⟨d1, k1⟩ := x
      obtain ⟨d2, k2⟩ := y
      rw [List.map_cons, List.map_cons] at hsh
      have hk : k1 = k2 := by simpa using List.head_eq_of_cons_eq hsh
      have htl : r1.map Prod.snd = r2.map Prod.snd :=
        List.tail_eq_of_cons_eq hsh
      rw [MerkleRootCalculator.rootFold, MerkleRootCalculator.rootFold] at h
      obtain ⟨hn, hfst⟩ := ih r2 _ _ htl h
      obtain ⟨hd, hn'⟩ := hNI _ _ _ _ hn
      exact ⟨hn', by rw [List.map_cons, List.map_cons, hd, hfst]⟩

theorem eq_of_map_fst_snd_eq :
    ∀ (l1 l2 : List (Digest × Nat)),
      l1.map Prod.fst = l2.map Prod.fst →
      l1.map Prod.snd = l2.map Prod.snd → l1 = l2 := by
  intro l1
  induction l1 with
  | nil =>
    intro l2 hf _
    exact (List.map_eq_nil_iff.mp hf.symm).symm
  | cons x l1 ih =>
    intro l2 hf hs
    cases l2 with
    | nil => simp at hf
    | cons y l2 =>
      obtain ⟨d1, k1⟩ := x
      obtain ⟨d2, k2⟩ := y
      rw [List.map_cons, List.map_cons] at hf hs
      have hd : d1 = d2 := List.head_eq_of_cons_eq hf
      have hk : k1 = k2 := List.head_eq_of_cons_eq hs
      rw [hd, hk,
        ih l2 (List.tail_eq_of_cons_eq hf) (List.tail_eq_of_cons_eq hs)]

theorem root_stack_inj (H : HashModel) (hNI : NodeInj H)
    (s1 s2 : List (Digest × Nat))
    (hsh : s1.map Prod.snd = s2.map Prod.snd)
    (hroot : MerkleRootCalculator.root H ⟨s1⟩ = MerkleRootCalculator.root H ⟨s2⟩) :
    s1 = s2 := by
  cases s1 with
  | nil => exact (List.map_eq_nil_iff.mp hsh.symm).symm
  | cons x s1 =>
    cases s2 with
    | nil => simp at hsh
    | cons y s2 =>
      obtain ⟨d1, k1⟩ := x
      obtain ⟨d2, k2⟩ := y
      rw [List.map_cons, List.map_cons] at hsh
      have hk : k1 = k2 := by simpa using List.head_eq_of_cons_eq hsh
      have htl : s1.map Prod.snd = s2.map Prod.snd :=
        List.tail_eq_of_cons_eq hsh
      unfold MerkleRootCalculator.root at hroot
      obtain ⟨hd, hfst⟩ := rootFold_inj H hNI s1 s2 d1 d2 htl hroot
      rw [hk, hd, eq_of_map_fst_snd_eq s1 s2 hfst htl]

theorem isDecomp_inj (H : HashModel) (hLI : Function.Injective H.leafHash)
    (hNI : NodeInj H) :
    ∀ (s : List (Digest × Nat)) (L1 L2 : List (List Nat)),
      IsDecomp H s L1 → IsDecomp H s L2 → L1.length = L2.length →
      L1 = L2 := by
  intro s
  induction s with
  | nil =>
    intro L1 L2 h1 h2 _
    rw [isDecomp_nil] at h1 h2
    rw [h1, h2]
  | cons x rest ih =>
    intro L1 L2 h1 h2 hlen
    obtain ⟨d, k⟩ := x
    rw [isDecomp_cons] at h1 h2
    obtain ⟨f1, c1, hL1, hc1, hd1, hr1⟩ := h1
    obtain ⟨f2, c2, hL2, hc2, hd2, hr2⟩ := h2
    have hc : c1 = c2 :=
      ptHash_inj H hLI hNI k c1 c2 hc1 hc2 (by rw [← hd1, ← hd2])
    have hflen : f1.length = f2.length := by
      have e1 := congrArg List.length hL1
      have e2 := congrArg List.length hL2
      rw [List.length_append] at e1 e2
      omega
    rw [hL1, hL2, hc, ih f1 f2 hr1 hr2 hflen]

/-- Collision-free root determination: with injective leaf and node
hashes, equal roots over equal-length leaf sequences force equal
sequences. -/
theorem computeRoot_inj (H : HashModel) (hLI : Function.Injective H.leafHash)
    (hNI : NodeInj H) (L1 L2 : List (List Nat))
    (hlen : L1.length = L2.length)
    (h : computeRoot H L1 = computeRoot H L2) : L1 = L2 := by
  have hsh : (MerkleRootCalculator.pushAll H .new L1).stack.map Prod.snd =
      (MerkleRootCalculator.pushAll H .new L2).stack.map Prod.snd :=
    map_snd_pushAll H H L1 L2 .new .new hlen rfl
  have hstk := root_stack_inj H hNI _ _ hsh h
  exact isDecomp_inj H hLI hNI _ L1 L2
    (hstk ▸ pushAll_new_isDecomp H L1) (pushAll_new_isDecomp H L2) hlen

theorem length_filterMap_of_isSome {α β : Type _} (f : α → Option β) :
    ∀ l : List α, (∀ x ∈ l, (f x).isSome = true) →
      (l.filterMap f).length = l.length := by
  intro l
  induction l with
  | nil => intro _; rfl
  | cons x xs ih =>
    intro h
    obtain ⟨y, hy⟩ := Option.isSome_iff_exists.mp (h x (by simp))
    rw [List.filterMap_cons, hy, List.length_cons, List.length_cons,
      ih (fun z hz => h z (by simp [hz]))]

theorem filterMap_eq_map_forall {α β : Type _} (f : α → Option β) (g : α → β) :
    ∀ l : List α, (∀ x ∈ l, (f x).isSome = true) →
      l.filterMap f = l.map g → ∀ x ∈ l, f x = some (g x) := by
  intro l
  induction l with
  | nil => intro _ _ x hx; simp at hx
  | cons x xs ih =>
    intro hall heq x' hx'
    obtain ⟨y, hy⟩ := Option.isSome_iff_exists.mp (hall x (by simp))
    rw [List.filterMap_cons, hy, List.map_cons] at heq
    have hhd : y = g x := List.head_eq_of_cons_eq heq
    have htl : xs.filterMap f = xs.map g := List.tail_eq_of_cons_eq heq
    rcases List.mem_cons.mp hx' with h | h
    · rw [h, hy, hhd]
    · exact ih (fun z hz => hall z (by simp [hz])) htl x' h

theorem H0_leafHash_inj : Function.Injective H0.leafHash := by
  intro a b h
  simpa [H0] using h

theorem H0_nodeInj : NodeInj H0 := by
  intro a b a' b' h
  simp only [H0, List.cons.injEq, true_and] at h
  exact List.append_inj h.2 h.1

/-! ## C10 — block-level leaves are canonical re-encodings -/

/-- C10: every leaf the loop appends to the block-level accumulator is the
canonical re-encoding of the decoded transaction (`encodeTx` applied after
`decodeTx`), not the raw payload bytes; consequently, reading the hash as
collision-free (injective leaf and node hashes), the computed
transactions-root agrees with the root over the raw payloads only when the
canonical encoding inverts decoding for every transaction in the block. -/
theorem c10_leaves_are_reencodings (C : Codec) (H : HashModel) (b : Block)
    (acc : MerkleRootCalculator)
    (hLI : Function.Injective H.leafHash) (hNI : NodeInj H)
    (hall : ∀ t ∈ b.transactions, (txLeaf C t).isSome = true)
    (hrun : runTxs C H b.id b.transactions .new = .ok acc) :
    acc = MerkleRootCalculator.pushAll H .new
        (b.transactions.filterMap (txLeaf C)) ∧
    (MerkleRootCalculator.root H acc =
        computeRoot H (b.transactions.map Tx.rawPayload) →
      ∀ t ∈ b.transactions, ∃ body, C.decodeTx t.rawPayload = .ok body ∧
        C.encodeTx body = t.rawPayload) := by
  have hA := runTxs_ok_pushAll C H b.id b.transactions _ acc hrun
  refine ⟨hA, ?_⟩
  intro hroot t ht
  have hlen : (b.transactions.filterMap (txLeaf C)).length =
      (b.transactions.map Tx.rawPayload).length := by
    rw [List.length_map]
    exact length_filterMap_of_isSome _ _ hall
  have hroot' : computeRoot H (b.transactions.filterMap (txLeaf C)) =
      computeRoot H (b.transactions.map Tx.rawPayload) := by
    rw [← hroot, hA]; rfl
  have heq := computeRoot_inj H hLI hNI _ _ hlen hroot'
  have htx := filterMap_eq_map_forall (txLeaf C) Tx.rawPayload
    b.transactions hall heq t ht
  cases hsr : statusReceipts t.status with
  | none => simp [txLeaf, hsr] at htx
  | some rs =>
    cases hds : C.decodeTx t.rawPayload with
    | error e => simp [txLeaf, hsr, hds] at htx
    | ok body =>
      refine ⟨body, rfl, ?_⟩
      simp only [txLeaf, hsr, hds, Option.some.injEq] at htx
      exact htx

/-- C10 witness: the theorem applied to the concrete fixture block, whose
codec's encoding does invert decoding. -/
theorem c10_leaves_are_reencodings_w :
    (MerkleRootCalculator.pushAll H0 .new [[0, 2, 0, 5, 4], [0, 2, 0, 6, 8]] =
      MerkleRootCalculator.pushAll H0 .new
        (failBlock.transactions.filterMap (txLeaf C0))) ∧
    (MerkleRootCalculator.root H0
        (MerkleRootCalculator.pushAll H0 .new
          [[0, 2, 0, 5, 4], [0, 2, 0, 6, 8]]) =
        computeRoot H0 (failBlock.transactions.map Tx.rawPayload) →
      ∀ t ∈ failBlock.transactions, ∃ body,
        C0.decodeTx t.rawPayload = .ok body ∧
        C0.encodeTx body = t.rawPayload) :=
  c10_leaves_are_reencodings C0 H0 failBlock
    (MerkleRootCalculator.pushAll H0 .new [[0, 2, 0, 5, 4], [0, 2, 0, 6, 8]])
    H0_leafHash_inj H0_nodeInj (by decide) rfl

end RootValidation
